import Mathlib

/-!  Verification development for the mbox-to-eml converter repository.

Shallow embedding of the two source files:
  - mbox_to_eml_converter.py : sanitize_filename, get_safe_filename,
    convert_mbox_to_eml, main (exit codes)
  - mbox_to_eml_gui.py : MboxToEmlBatchGUI.sanitize, .run (validation and
    the greedy batch partitioner of Step 2)
Strings are embedded as `List Char`, file sizes and counters as `Nat`,
the filesystem as an explicit list of existing paths threaded through the
driver loop. -/

namespace MboxToEml

/-! ### Batch partitioner — mbox_to_eml_gui.py, `run`, Step 2 (lines 149-158)

Python source:
    batches=[]
    cur,cur_size=[],0
    maxb=mb*1024*1024
    for f in eml_files:
        sz=f.stat().st_size
        if len(cur)>=bs or cur_size+sz>maxb:
            batches.append(cur); cur,cur_size=[],0
        cur.append(f); cur_size+=sz
    if cur: batches.append(cur)

Files are abstracted to an arbitrary type `α` together with their size
function `sz` (in the source, `f.stat().st_size`). -/

def batchSize {α : Type} (sz : α → Nat) (b : List α) : Nat :=
  (b.map sz).sum

def partitionLoop {α : Type} (sz : α → Nat) (bs maxb : Nat) :
    List α → List α → Nat → List (List α)
  | [], cur, _ => if cur.isEmpty then [] else [cur]
  | f :: rest, cur, curSize =>
    if bs ≤ cur.length ∨ maxb < curSize + sz f then
      cur :: partitionLoop sz bs maxb rest [f] (sz f)
    else
      partitionLoop sz bs maxb rest (cur ++ [f]) (curSize + sz f)

def partition {α : Type} (sz : α → Nat) (bs maxb : Nat) (files : List α) :
    List (List α) :=
  partitionLoop sz bs maxb files [] 0

/-- The batches a closed loop state can emit: count bounded by `bs`, and the
byte bound `maxb` is respected except by a singleton oversized file. -/
def goodBatch {α : Type} (sz : α → Nat) (bs maxb : Nat) (b : List α) : Prop :=
  b.length ≤ bs ∧ (batchSize sz b ≤ maxb ∨ ∃ f, b = [f] ∧ maxb < sz f)

theorem partitionLoop_good {α : Type} (sz : α → Nat) (bs maxb : Nat) (hbs : 1 ≤ bs) :
    ∀ (rest cur : List α) (curSize : Nat),
      goodBatch sz bs maxb cur → curSize = batchSize sz cur →
      ∀ b ∈ partitionLoop sz bs maxb rest cur curSize, goodBatch sz bs maxb b := by
  intro rest
  induction rest with
  | nil =>
    intro cur curSize hg _ b hb
    rw [partitionLoop] at hb
    split at hb
    · simp at hb
    · simp only [List.mem_singleton] at hb
      subst hb; exact hg
  | cons f t ih =>
    intro cur curSize hg hsz b hb
    rw [partitionLoop] at hb
    split at hb
    · rcases List.mem_cons.mp hb with rfl | hb'
      · exact hg
      · refine ih [f] (sz f) ⟨by simpa using hbs, ?_⟩ (by simp [batchSize]) b hb'
        by_cases hf : sz f ≤ maxb
        · left; simpa [batchSize] using hf
        · right; exact ⟨f, rfl, by omega⟩
    · rename_i h
      push_neg at h
      refine ih (cur ++ [f]) (curSize + sz f) ⟨?_, ?_⟩ ?_ b hb
      · simpa using Nat.succ_le_of_lt h.1
      · left
        simp only [batchSize, List.map_append, List.sum_append, List.map_cons,
          List.map_nil, List.sum_cons, List.sum_nil]
        have := h.2
        simp only [batchSize] at hsz
        omega
      · simp [batchSize, hsz]

/-- C1: for maxCount ≥ 1 and maxBytes ≥ 1, every batch the partitioner
produces has at most maxCount files, and its total size exceeds maxBytes
only when the batch is a single file whose size alone exceeds maxBytes. -/
theorem partition_bounds {α : Type} (sz : α → Nat) (bs maxb : Nat)
    (hbs : 1 ≤ bs) (hmb : 1 ≤ maxb) (files : List α) :
    ∀ b ∈ partition sz bs maxb files,
      b.length ≤ bs ∧ (batchSize sz b ≤ maxb ∨ ∃ f, b = [f] ∧ maxb < sz f) := by
  intro b hb
  exact partitionLoop_good sz bs maxb hbs files [] 0
    ⟨by simp, Or.inl (by simp [batchSize])⟩ (by simp [batchSize]) b hb

/-- Witness for C1 at files of sizes [5, 6, 7] with maxCount = 2, maxBytes = 10. -/
theorem partition_bounds_witness :
    List.length [6] ≤ 2
    ∧ (batchSize (fun n : Nat => n) [6] ≤ 10 ∨ ∃ f, [6] = [f] ∧ 10 < (fun n : Nat => n) f) :=
  partition_bounds (fun n : Nat => n) 2 10 (by decide) (by decide) [5, 6, 7] [6] (by decide)

theorem partitionLoop_flatten {α : Type} (sz : α → Nat) (bs maxb : Nat) :
    ∀ (rest cur : List α) (curSize : Nat),
      (partitionLoop sz bs maxb rest cur curSize).flatten = cur ++ rest := by
  intro rest
  induction rest with
  | nil =>
    intro cur curSize
    rw [partitionLoop]
    split
    · rename_i h
      simp [List.isEmpty_iff.mp h]
    · simp
  | cons f t ih =>
    intro cur curSize
    rw [partitionLoop]
    split
    · simp [ih]
    · simp [ih]

/-- C2: concatenating the partitioner's batches in order gives back exactly the
input sequence — order preserved, nothing duplicated, nothing dropped. -/
theorem partition_flatten {α : Type} (sz : α → Nat) (bs maxb : Nat) (files : List α) :
    (partition sz bs maxb files).flatten = files := by
  simpa using partitionLoop_flatten sz bs maxb files [] 0

/-- C3 counterexample: a single file of size 200 with maxCount = 50 and
maxBytes = 100 makes the partitioner emit an empty batch — the loop closes the
current batch without checking that it is non-empty. -/
theorem partition_empty_batch_cex :
    partition (fun n : Nat => n) 50 100 [200] = [[], [200]]
    ∧ [] ∈ partition (fun n : Nat => n) 50 100 [200] := by
  exact ⟨rfl, by decide⟩

theorem partitionLoop_close_now {α : Type} (sz : α → Nat) (bs maxb : Nat)
    (rest : List α) (cur : List α) (curSize : Nat)
    (hover : maxb < curSize) (hne : cur ≠ []) :
    cur ∈ partitionLoop sz bs maxb rest cur curSize := by
  cases rest with
  | nil =>
    rw [partitionLoop]
    rw [if_neg (by simpa using hne)]
    exact List.mem_singleton_self cur
  | cons g t =>
    rw [partitionLoop, if_pos (Or.inr (by omega))]
    exact List.mem_cons_self cur _

theorem partitionLoop_isolates {α : Type} (sz : α → Nat) (bs maxb : Nat) (f : α)
    (hf : maxb < sz f) :
    ∀ (rest cur : List α) (curSize : Nat), f ∈ rest →
      [f] ∈ partitionLoop sz bs maxb rest cur curSize := by
  intro rest
  induction rest with
  | nil => intro cur curSize h; simp at h
  | cons g t ih =>
    intro cur curSize hmem
    rcases List.mem_cons.mp hmem with rfl | hmem'
    · rw [partitionLoop, if_pos (Or.inr (by omega))]
      exact List.mem_cons_of_mem _
        (partitionLoop_close_now sz bs maxb t [f] (sz f) hf (by simp))
    · rw [partitionLoop]
      split
      · exact List.mem_cons_of_mem _ (ih _ _ hmem')
      · exact ih _ _ hmem'

/-- C3 amended: a file whose size alone exceeds maxBytes still ends up in a
batch containing exactly that one file; however the partitioner closes the
current batch even when it is empty, so the output can contain empty batches. -/
theorem partition_oversized_isolated :
    (∀ (α : Type) (sz : α → Nat) (bs maxb : Nat) (files : List α) (f : α),
        f ∈ files → maxb < sz f → [f] ∈ partition sz bs maxb files)
    ∧ ∃ b ∈ partition (fun n : Nat => n) 50 100 [200], b = [] := by
  constructor
  · intro α sz bs maxb files f hmem hf
    exact partitionLoop_isolates sz bs maxb f hf files [] 0 hmem
  · exact ⟨[], by decide, rfl⟩

/-- Witness for C3 amended: the oversized file 200 sits alone in its batch. -/
theorem partition_oversized_isolated_witness :
    [200] ∈ partition (fun n : Nat => n) 50 100 [200] :=
  partition_oversized_isolated.1 Nat (fun n => n) 50 100 [200] 200 (by decide) (by decide)

/-! ### GUI run validation — mbox_to_eml_gui.py, `run` (lines 114-132)

The `run` method validates only that the mbox file exists and that the output
directory can be created; the batch parameters `bs` and `mb` are read from the
widgets and used as-is.  Conversion itself is abstracted away: `sizes` is the
sequence of sizes of the produced eml files, in the (size-sorted) order that
Step 2 feeds to the partitioner. -/

inductive GuiRunError : Type
  | mboxNotFound
  | cannotCreateOutputDir

def guiRun (mboxExists canCreateOut : Bool) (sizes : List Nat) (bs mb : Nat) :
    Except GuiRunError (List (List Nat)) :=
  if !mboxExists then .error .mboxNotFound
  else if !canCreateOut then .error .cannotCreateOutputDir
  else .ok (partition (fun n => n) bs (mb * 1024 * 1024) sizes)

/-- C7 counterexample: with maxCount = 0 (< 1) and maxBytes = 0 (< 1) the run
raises no error at all and the partitioner happily builds batches. -/
theorem guiRun_no_config_check_cex :
    guiRun true true [1] 0 0 = .ok [[], [1]]
    ∧ (guiRun true true [1] 0 0).isOk = true :=
  ⟨rfl, rfl⟩

/-- C7 amended: the code performs no validation of maxCount or maxBytes — for
any configuration with maxCount < 1 or maxBytes < 1 the run still succeeds and
the partitioner processes every file (no ConfigurationError exists). -/
theorem guiRun_amended (sizes : List Nat) (bs mb : Nat)
    (h : bs < 1 ∨ mb * 1024 * 1024 < 1) :
    (guiRun true true sizes bs mb).isOk = true
    ∧ (partition (fun n => n) bs (mb * 1024 * 1024) sizes).flatten = sizes :=
  ⟨rfl, by simpa using partitionLoop_flatten (fun n => n) bs (mb * 1024 * 1024) sizes [] 0⟩

/-- Witness for C7 amended at maxCount = 0, maxBytes = 0, one file of size 1. -/
theorem guiRun_amended_witness :
    (guiRun true true [1] 0 0).isOk = true
    ∧ (partition (fun n : Nat => n) 0 (0 * 1024 * 1024) [1]).flatten = [1] :=
  guiRun_amended [1] 0 0 (Or.inl (by decide))

/-! ### Filename sanitizers

CLI — mbox_to_eml_converter.py, `sanitize_filename` (lines 36-56):
    filename = re.sub(r'[<>:"/\|?*]', '_', filename)
    filename = re.sub(r'[\x00-\x1f]', '', filename)
    filename = filename.strip()
    if len(filename) > max_length:
        filename = filename[:max_length-4] + "..."
    return filename if filename else "unnamed_email"
Note that in the character class of the first regex, backslash-pipe denotes a
literal pipe, so the class contains the eight characters < > : " / | ? * and
does NOT contain a backslash.

GUI — mbox_to_eml_gui.py, `sanitize` (lines 98-101):
    text = re.sub(r'[<>:"/\\|?*]', '_', text)
    text = re.sub(r'\s+', ' ', text).strip()
    return text[:max_len] or "No_Subject"
Here the doubled backslash in the class is a literal backslash, so all nine
characters are replaced; control characters other than whitespace are kept. -/

def cliInvalidChar (c : Char) : Bool :=
  c = '<' || c = '>' || c = ':' || c = '"' || c = '/' || c = '|' || c = '?' || c = '*'

def guiInvalidChar (c : Char) : Bool :=
  c = '<' || c = '>' || c = ':' || c = '"' || c = '/' || c = '\\' || c = '|' || c = '?' || c = '*'

def isCtrl (c : Char) : Bool :=
  c.toNat ≤ 0x1f

/-- ASCII whitespace as matched by Python's regex and `str.strip`. -/
def pyIsSpace (c : Char) : Bool :=
  c = ' ' || (9 ≤ c.toNat && c.toNat ≤ 13)

/-- Python `str.strip()`: remove leading and trailing whitespace. -/
def pyStrip (l : List Char) : List Char :=
  ((l.dropWhile pyIsSpace).reverse.dropWhile pyIsSpace).reverse

/-- Python slicing `s[:k]` for a possibly negative bound `k`. -/
def pySliceTo (l : List Char) (k : Int) : List Char :=
  if 0 ≤ k then l.take k.toNat else l.take (l.length - (-k).toNat)

def cliReplaced (filename : List Char) : List Char :=
  (filename.map (fun c => if cliInvalidChar c then '_' else c)).filter (fun c => !isCtrl c)

def cliStripped (filename : List Char) : List Char :=
  pyStrip (cliReplaced filename)

def cliTruncated (filename : List Char) (max_length : Nat) : List Char :=
  if max_length < (cliStripped filename).length then
    pySliceTo (cliStripped filename) ((max_length : Int) - 4) ++ "...".data
  else cliStripped filename

def sanitize_filename (filename : List Char) (max_length : Nat) : List Char :=
  if cliTruncated filename max_length = [] then "unnamed_email".data
  else cliTruncated filename max_length

/-- Python `re.sub(r'\s+', ' ', text)`: each maximal whitespace run becomes a
single space.  The Boolean records whether the previous character was part of
a whitespace run. -/
def collapseWsAux : Bool → List Char → List Char
  | _, [] => []
  | prevWs, c :: rest =>
    if pyIsSpace c then
      if prevWs then collapseWsAux true rest else ' ' :: collapseWsAux true rest
    else c :: collapseWsAux false rest

def guiReplaced (text : List Char) : List Char :=
  text.map (fun c => if guiInvalidChar c then '_' else c)

def guiCollapsed (text : List Char) : List Char :=
  pyStrip (collapseWsAux false (guiReplaced text))

def sanitize (text : List Char) (max_len : Nat) : List Char :=
  if (guiCollapsed text).take max_len = [] then "No_Subject".data
  else (guiCollapsed text).take max_len

/-- C4 counterexample: the CLI sanitizer does not replace backslashes, the GUI
sanitizer keeps non-whitespace control characters such as 0x01, and with a
small maxLength the CLI placeholder makes the result longer than maxLength. -/
theorem sanitize_cex :
    '\\' ∈ sanitize_filename ('a' :: '\\' :: 'b' :: []) 100
    ∧ Char.ofNat 1 ∈ sanitize (Char.ofNat 1 :: 'a' :: []) 50
    ∧ 5 < (sanitize_filename [] 5).length := by
  decide

theorem mem_pyStrip {l : List Char} {c : Char} (h : c ∈ pyStrip l) : c ∈ l := by
  unfold pyStrip at h
  rw [List.mem_reverse] at h
  have h1 := (List.dropWhile_sublist pyIsSpace).subset h
  rw [List.mem_reverse] at h1
  exact (List.dropWhile_sublist pyIsSpace).subset h1

theorem mem_take {l : List Char} {n : Nat} {c : Char} (h : c ∈ l.take n) : c ∈ l :=
  (List.take_sublist n l).subset h

theorem mem_pySliceTo {l : List Char} {k : Int} {c : Char} (h : c ∈ pySliceTo l k) :
    c ∈ l := by
  unfold pySliceTo at h
  split at h <;> exact mem_take h

theorem mem_collapseWsAux : ∀ (b : Bool) (l : List Char) (c : Char),
    c ∈ collapseWsAux b l → c = ' ' ∨ c ∈ l := by
  intro b l
  induction l generalizing b with
  | nil => intro c h; simp [collapseWsAux] at h
  | cons a t ih =>
    intro c h
    rw [collapseWsAux] at h
    split at h
    · split at h
      · rcases ih true c h with h' | h'
        · exact Or.inl h'
        · exact Or.inr (List.mem_cons_of_mem _ h')
      · rcases List.mem_cons.mp h with rfl | h'
        · exact Or.inl rfl
        · rcases ih true c h' with h'' | h''
          · exact Or.inl h''
          · exact Or.inr (List.mem_cons_of_mem _ h'')
    · rcases List.mem_cons.mp h with rfl | h'
      · exact Or.inr (List.mem_cons_self _ _)
      · rcases ih false c h' with h'' | h''
        · exact Or.inl h''
        · exact Or.inr (List.mem_cons_of_mem _ h'')

theorem map_repl_not_invalid (inv : Char → Bool) (hund : inv '_' = false)
    (s : List Char) {c : Char}
    (h : c ∈ s.map (fun c => if inv c then '_' else c)) : inv c = false := by
  rcases List.mem_map.mp h with ⟨a, _, rfl⟩
  split
  · exact hund
  · rename_i hna
    simpa using hna

theorem cliStripped_good (s : List Char) :
    ∀ c ∈ cliStripped s, cliInvalidChar c = false ∧ isCtrl c = false := by
  intro c hc
  have h2 := mem_pyStrip hc
  have h3 := List.mem_filter.mp h2
  refine ⟨map_repl_not_invalid cliInvalidChar (by decide) s h3.1, ?_⟩
  simpa using h3.2

theorem sanitize_filename_chars (s : List Char) (m : Nat) :
    ∀ c ∈ sanitize_filename s m, cliInvalidChar c = false ∧ isCtrl c = false := by
  intro c hc
  unfold sanitize_filename at hc
  split at hc
  · exact (by decide : ∀ c ∈ "unnamed_email".data,
      cliInvalidChar c = false ∧ isCtrl c = false) c hc
  · unfold cliTruncated at hc
    split at hc
    · rcases List.mem_append.mp hc with h | h
      · exact cliStripped_good s c (mem_pySliceTo h)
      · exact (by decide : ∀ c ∈ "...".data,
          cliInvalidChar c = false ∧ isCtrl c = false) c h
    · exact cliStripped_good s c hc

theorem sanitize_filename_length (s : List Char) (m : Nat) (hm : 13 ≤ m) :
    (sanitize_filename s m).length ≤ m := by
  unfold sanitize_filename
  split
  · exact le_trans (by decide : ("unnamed_email".data).length ≤ 13) hm
  · unfold cliTruncated
    split
    · rename_i h
      rw [List.length_append]
      rw [(by decide : ("...".data).length = 3)]
      unfold pySliceTo
      rw [if_pos (by omega : (0 : Int) ≤ (m : Int) - 4)]
      rw [List.length_take]
      rw [(by omega : ((m : Int) - 4).toNat = m - 4)]
      have := Nat.min_le_left (m - 4) (cliStripped s).length
      omega
    · rename_i h
      omega

theorem sanitize_filename_ne_nil (s : List Char) (m : Nat) :
    sanitize_filename s m ≠ [] := by
  unfold sanitize_filename
  split
  · decide
  · assumption

theorem guiCollapsed_good (s : List Char) :
    ∀ c ∈ guiCollapsed s, guiInvalidChar c = false := by
  intro c hc
  have h1 := mem_pyStrip hc
  rcases mem_collapseWsAux false _ c h1 with rfl | h2
  · decide
  · exact map_repl_not_invalid guiInvalidChar (by decide) s h2

theorem sanitize_chars (s : List Char) (m : Nat) :
    ∀ c ∈ sanitize s m, guiInvalidChar c = false := by
  intro c hc
  unfold sanitize at hc
  split at hc
  · exact (by decide : ∀ c ∈ "No_Subject".data, guiInvalidChar c = false) c hc
  · exact guiCollapsed_good s c (mem_take hc)

theorem sanitize_length (s : List Char) (m : Nat) (hm : 10 ≤ m) :
    (sanitize s m).length ≤ m := by
  unfold sanitize
  split
  · exact le_trans (by decide : ("No_Subject".data).length ≤ 10) hm
  · rw [List.length_take]
    have := Nat.min_le_left m (guiCollapsed s).length
    omega

theorem sanitize_ne_nil (s : List Char) (m : Nat) : sanitize s m ≠ [] := by
  unfold sanitize
  split
  · decide
  · assumption

/-- C4 amended: for every input and every maxLength ≥ 13, `sanitize_filename`
returns a non-empty string of length ≤ maxLength containing no ASCII control
character and none of < > : " / | ? * — but a backslash is not replaced and may
appear; the GUI `sanitize` returns a non-empty string of length ≤ maxLength
containing none of the nine characters < > : " / \ | ? * — but ASCII control
characters that are not whitespace may remain. -/
theorem sanitize_guarantees (s t : List Char) (m : Nat) (hm : 13 ≤ m) :
    (sanitize_filename s m ≠ [] ∧ (sanitize_filename s m).length ≤ m
      ∧ ∀ c ∈ sanitize_filename s m, cliInvalidChar c = false ∧ isCtrl c = false)
    ∧ (sanitize t m ≠ [] ∧ (sanitize t m).length ≤ m
      ∧ ∀ c ∈ sanitize t m, guiInvalidChar c = false) :=
  ⟨⟨sanitize_filename_ne_nil s m, sanitize_filename_length s m hm,
      sanitize_filename_chars s m⟩,
   ⟨sanitize_ne_nil t m, sanitize_length t m (by omega), sanitize_chars t m⟩⟩

/-- Witness for C4 amended at inputs "a", "b" with maxLength 13. -/
theorem sanitize_guarantees_witness :
    (sanitize_filename ('a' :: []) 13 ≠ [] ∧ (sanitize_filename ('a' :: []) 13).length ≤ 13
      ∧ ∀ c ∈ sanitize_filename ('a' :: []) 13, cliInvalidChar c = false ∧ isCtrl c = false)
    ∧ (sanitize ('b' :: []) 13 ≠ [] ∧ (sanitize ('b' :: []) 13).length ≤ 13
      ∧ ∀ c ∈ sanitize ('b' :: []) 13, guiInvalidChar c = false) :=
  sanitize_guarantees ('a' :: []) ('b' :: []) 13 (by decide)

/-! ### Unique output paths — mbox_to_eml_converter.py, `get_safe_filename`
(lines 58-90) and the write loop of `convert_mbox_to_eml` (lines 124-137)

Python source of the uniqueness loop:
    filename = f"{base_name}.eml"
    filepath = os.path.join(output_dir, filename)
    counter = 1
    while os.path.exists(filepath):
        filename = f"{base_name}_{counter}.eml"
        filepath = os.path.join(output_dir, filename)
        counter += 1
    return filepath -/

/-- Decimal value of a digit string, continuing from accumulator `a`. -/
def digitsVal (a : Nat) (l : List Char) : Nat :=
  l.foldl (fun acc c => acc * 10 + (c.toNat - 48)) a

/-- Decimal rendering of a natural number, as Python string formatting
produces it; fuelled so that the kernel can evaluate it. -/
def natDigitsAux : Nat → Nat → List Char
  | 0, _ => []
  | fuel + 1, n =>
    if n < 10 then [Nat.digitChar n]
    else natDigitsAux fuel (n / 10) ++ [Nat.digitChar (n % 10)]

def natDigits (n : Nat) : List Char :=
  natDigitsAux (n + 1) n

theorem digitChar_val {n : Nat} (h : n < 10) : (Nat.digitChar n).toNat - 48 = n := by
  interval_cases n <;> decide

theorem natDigitsAux_val : ∀ (fuel n a : Nat), n < fuel →
    digitsVal a (natDigitsAux fuel n) = a * 10 ^ (natDigitsAux fuel n).length + n := by
  intro fuel
  induction fuel with
  | zero => intro n a h; omega
  | succ f ih =>
    intro n a h
    rw [natDigitsAux]
    split
    · rename_i h10
      simp only [digitsVal, List.foldl_cons, List.foldl_nil, List.length_cons,
        List.length_nil, Nat.zero_add, pow_one]
      rw [digitChar_val h10]
    · rename_i h10
      push_neg at h10
      have hlt : n / 10 < f := by
        have := Nat.div_lt_self (by omega : 0 < n) (by omega : 1 < 10)
        omega
      have hih := ih (n / 10) a hlt
      unfold digitsVal at hih ⊢
      rw [List.foldl_append, hih]
      simp only [List.foldl_cons, List.foldl_nil, List.length_append,
        List.length_cons, List.length_nil]
      rw [digitChar_val (Nat.mod_lt n (by omega))]
      rw [pow_succ]
      have hdm : n / 10 * 10 + n % 10 = n := by omega
      calc (a * 10 ^ (natDigitsAux f (n / 10)).length + n / 10) * 10 + n % 10
          = a * (10 ^ (natDigitsAux f (n / 10)).length * 10)
            + (n / 10 * 10 + n % 10) := by ring
        _ = a * (10 ^ (natDigitsAux f (n / 10)).length * 10) + n := by rw [hdm]

theorem natDigits_val (n : Nat) : digitsVal 0 (natDigits n) = n := by
  simpa using natDigitsAux_val (n + 1) n 0 (by omega)

theorem natDigits_inj {a b : Nat} (h : natDigits a = natDigits b) : a = b := by
  have ha := natDigits_val a
  have hb := natDigits_val b
  rw [h] at ha
  exact ha.symm.trans hb

/-- The characters of ".eml". -/
def emlExt : List Char := '.' :: 'e' :: 'm' :: 'l' :: []

/-- Candidate `k = 0` is `{base_name}.eml`; candidate `k ≥ 1` is
`{base_name}_{k}.eml`, matching `counter` in the while loop. -/
def candName (base_name : List Char) : Nat → List Char
  | 0 => base_name ++ emlExt
  | k + 1 => base_name ++ '_' :: (natDigits (k + 1) ++ emlExt)

/-- `os.path.join(output_dir, filename)`. -/
def candPath (output_dir base_name : List Char) (k : Nat) : List Char :=
  output_dir ++ '/' :: candName base_name k

theorem candName_inj (base_name : List Char) : ∀ {j k : Nat},
    candName base_name j = candName base_name k → j = k := by
  intro j k h
  cases j with
  | zero =>
    cases k with
    | zero => rfl
    | succ k =>
      exfalso
      unfold candName at h
      have h' := List.append_cancel_left h
      rw [emlExt] at h'
      injection h' with h1 _
      exact absurd h1 (by decide)
  | succ j =>
    cases k with
    | zero =>
      exfalso
      unfold candName at h
      have h' := List.append_cancel_left h
      rw [emlExt] at h'
      injection h' with h1 _
      exact absurd h1 (by decide)
    | succ k =>
      unfold candName at h
      have h' := List.append_cancel_left h
      injection h' with _ h''
      have hlen := congrArg List.length h''
      simp only [List.length_append] at hlen
      have heq := (List.append_inj h'' (by omega)).1
      have := natDigits_inj heq
      omega

theorem candPath_inj (output_dir base_name : List Char) {j k : Nat}
    (h : candPath output_dir base_name j = candPath output_dir base_name k) : j = k := by
  unfold candPath at h
  have h' := List.append_cancel_left h
  injection h' with _ h''
  exact candName_inj base_name h''

/-- Among the candidates `0 .. existing.length` at least one path is unused:
there are `existing.length + 1` pairwise distinct candidates and only
`existing.length` existing paths. -/
theorem exists_fresh_cand (existing : List (List Char)) (output_dir base_name : List Char) :
    ∃ j, j ≤ existing.length ∧ candPath output_dir base_name j ∉ existing := by
  by_contra hall
  push_neg at hall
  have hsub : (Finset.range (existing.length + 1)).image (candPath output_dir base_name)
      ⊆ existing.toFinset := by
    intro p hp
    rcases Finset.mem_image.mp hp with ⟨j, hj, rfl⟩
    rw [List.mem_toFinset]
    exact hall j (Nat.lt_succ_iff.mp (Finset.mem_range.mp hj))
  have hcard := Finset.card_le_card hsub
  rw [Finset.card_image_of_injOn
    (fun a _ b _ hab => candPath_inj output_dir base_name hab)] at hcard
  rw [Finset.card_range] at hcard
  have := existing.toFinset_card_le
  omega

/-- The while loop `while os.path.exists(filepath): counter += 1 ...`, run
with explicit fuel; `os.path.exists` is membership in `existing`. -/
def searchFrom (existing : List (List Char)) (output_dir base_name : List Char) :
    Nat → Nat → List Char
  | 0, k => candPath output_dir base_name k
  | fuel + 1, k =>
    if candPath output_dir base_name k ∈ existing then
      searchFrom existing output_dir base_name fuel (k + 1)
    else candPath output_dir base_name k

theorem searchFrom_fresh (existing : List (List Char)) (output_dir base_name : List Char) :
    ∀ (fuel k : Nat),
      (∃ j, k ≤ j ∧ j < k + fuel ∧ candPath output_dir base_name j ∉ existing) →
      searchFrom existing output_dir base_name fuel k ∉ existing := by
  intro fuel
  induction fuel with
  | zero =>
    intro k h
    obtain ⟨j, h1, h2, _⟩ := h
    omega
  | succ f ih =>
    intro k h
    obtain ⟨j, h1, h2, h3⟩ := h
    rw [searchFrom]
    split
    · rename_i hk
      apply ih (k + 1)
      have hjk : j ≠ k := fun hjk => h3 (hjk ▸ hk)
      exact ⟨j, by omega, by omega, h3⟩
    · assumption

/-- Zero-padded `f"{index:04d}"`. -/
def fmt04d (n : Nat) : List Char :=
  List.replicate (4 - (natDigits n).length) '0' ++ natDigits n

/-- `base_name = f"{index:04d}_{sanitize_filename(subject)}_{sanitize_filename(sender_name)}"`
(line 78).  `sender_name` is the address the regex extracts from the From
header (or the raw header when no address matches); the extraction does not
affect path uniqueness and is taken here as an input. -/
def mkBaseName (index : Nat) (subject sender_name : List Char) : List Char :=
  fmt04d index ++ '_' :: (sanitize_filename subject 100 ++ '_' :: sanitize_filename sender_name 100)

def get_safe_filename (existing : List (List Char)) (output_dir : List Char)
    (index : Nat) (subject sender_name : List Char) : List Char :=
  searchFrom existing output_dir (mkBaseName index subject sender_name)
    (existing.length + 1) 0

theorem get_safe_filename_fresh (existing : List (List Char)) (output_dir : List Char)
    (index : Nat) (subject sender_name : List Char) :
    get_safe_filename existing output_dir index subject sender_name ∉ existing := by
  apply searchFrom_fresh
  obtain ⟨j, hj, hfresh⟩ :=
    exists_fresh_cand existing output_dir (mkBaseName index subject sender_name)
  exact ⟨j, by omega, by omega, hfresh⟩

/-- The path-selection behaviour of the write loop (lines 124-137): for each
message in index order, a path is chosen by `get_safe_filename` and the file
is created there by `open`, so the path exists for every later probe.  A
message is its `(subject, sender_name)` pair. -/
def convertPaths (output_dir : List Char) :
    List (List Char) → Nat → List (List Char × List Char) → List (List Char)
  | _, _, [] => []
  | existing, i, (subject, sender) :: rest =>
    get_safe_filename existing output_dir i subject sender ::
      convertPaths output_dir
        (get_safe_filename existing output_dir i subject sender :: existing) (i + 1) rest

theorem convertPaths_avoid (output_dir : List Char) :
    ∀ (msgs : List (List Char × List Char)) (existing : List (List Char)) (i : Nat)
      (p : List Char), p ∈ convertPaths output_dir existing i msgs → p ∉ existing := by
  intro msgs
  induction msgs with
  | nil => intro existing i p hp; simp [convertPaths] at hp
  | cons m rest ih =>
    intro existing i p hp
    obtain ⟨subject, sender⟩ := m
    rw [convertPaths] at hp
    rcases List.mem_cons.mp hp with rfl | hp'
    · exact get_safe_filename_fresh existing output_dir i subject sender
    · intro hmem
      exact ih _ _ p hp' (List.mem_cons_of_mem _ hmem)

/-- C5: within one run no two messages are written to the same output path —
the indexed base name is uniquified with suffixes _1, _2, … against every path
existing at write time, including those written earlier in the run. -/
theorem convertPaths_nodup (output_dir : List Char) (existing : List (List Char))
    (i : Nat) (msgs : List (List Char × List Char)) :
    (convertPaths output_dir existing i msgs).Nodup := by
  induction msgs generalizing existing i with
  | nil => simp [convertPaths]
  | cons m rest ih =>
    obtain ⟨subject, sender⟩ := m
    rw [convertPaths]
    refine List.nodup_cons.mpr ⟨?_, ih _ _⟩
    intro hmem
    exact convertPaths_avoid output_dir rest _ _ _ hmem (List.mem_cons_self _ _)

/-- Modelled from the semantics of `Path(d).mkdir(parents=True, exist_ok=True)`
as called at mbox_to_eml_converter.py line 108: with exist_ok set, an existing
directory is not an error. -/
inductive MkdirResult : Type
  | ok (dirs : List (List Char))
  | fileExistsError

def MkdirResult.isOk : MkdirResult → Bool
  | .ok _ => true
  | .fileExistsError => false

def mkdir (dirs : List (List Char)) (d : List Char) (exist_ok : Bool) : MkdirResult :=
  if d ∈ dirs then (if exist_ok then .ok dirs else .fileExistsError)
  else .ok (d :: dirs)

/-- C9: a second run against a pre-existing output directory does not fail on
the existing directory (exist_ok create), and every path the second run picks
avoids every file of the first run, so those files are left unchanged. -/
theorem second_run_no_overwrite (output_dir : List Char) (firstRun : List (List Char))
    (i : Nat) (msgs : List (List Char × List Char)) :
    (∀ (dirs : List (List Char)) (d : List Char), (mkdir dirs d true).isOk = true)
    ∧ ∀ p ∈ convertPaths output_dir firstRun i msgs, p ∉ firstRun := by
  constructor
  · intro dirs d
    unfold mkdir
    split <;> simp [MkdirResult.isOk]
  · intro p hp
    exact convertPaths_avoid output_dir msgs firstRun i p hp

/-- Witness for C9: a second run over one message, with one file from a first
run already on disk, picks a path distinct from that file. -/
theorem second_run_no_overwrite_witness :
    get_safe_filename (('x' :: []) :: []) [] 1 [] [] ∉ (('x' :: []) :: []) :=
  (second_run_no_overwrite [] (('x' :: []) :: []) 1 [([], [])]).2 _
    (List.mem_cons_self _ _)

/-! ### Driver counters — convert_mbox_to_eml (lines 110-159) and
main (lines 193-213)

Python source of the counting loop:
    success_count = 0; error_count = 0; total_count = 0
    for index, message in enumerate(mbox, 1):
        total_count = index
        try:
            ... get_safe_filename ...; open/flatten ...
            success_count += 1
        except Exception:
            error_count += 1
            continue
    return success_count, error_count, total_count -/

/-- One iteration per message: `total_count = index`, then the try block
either completes (success_count += 1, the file is written) or raises
(error_count += 1, continue).  Whether a message's try block completes is the
oracle `ok`, standing for the absence of a serialization exception.  The
accumulator carries `((success_count, error_count, total_count), written)`. -/
def convertLoop {α : Type} (ok : α → Bool) :
    Nat → List α → (Nat × Nat × Nat) × List α → (Nat × Nat × Nat) × List α
  | _, [], acc => acc
  | i, m :: rest, ((s, e, _), written) =>
    if ok m then convertLoop ok (i + 1) rest ((s + 1, e, i), written ++ [m])
    else convertLoop ok (i + 1) rest ((s, e + 1, i), written)

def convert_mbox_to_eml {α : Type} (ok : α → Bool) (msgs : List α) :
    (Nat × Nat × Nat) × List α :=
  convertLoop ok 1 msgs ((0, 0, 0), [])

theorem convertLoop_total {α : Type} (ok : α → Bool) :
    ∀ (msgs : List α) (i s e t : Nat) (w : List α), t = s + e → i = s + e + 1 →
      (convertLoop ok i msgs ((s, e, t), w)).1.2.2 =
        (convertLoop ok i msgs ((s, e, t), w)).1.1
          + (convertLoop ok i msgs ((s, e, t), w)).1.2.1 := by
  intro msgs
  induction msgs with
  | nil =>
    intro i s e t w h1 h2
    simpa [convertLoop] using h1
  | cons m rest ih =>
    intro i s e t w h1 h2
    rw [convertLoop]
    split
    · exact ih (i + 1) (s + 1) e i (w ++ [m]) (by omega) (by omega)
    · exact ih (i + 1) s (e + 1) i w (by omega) (by omega)

/-- C6: a per-message serialization failure is counted and the run continues,
so the final report always satisfies total = succeeded + failed; in a run of
three messages where exactly message 2 fails, the report is
(succeeded, failed, total) = (2, 1, 3) and messages 1 and 3 are written. -/
theorem convert_continue_on_error :
    (∀ (α : Type) (ok : α → Bool) (msgs : List α),
      (convert_mbox_to_eml ok msgs).1.2.2 =
        (convert_mbox_to_eml ok msgs).1.1 + (convert_mbox_to_eml ok msgs).1.2.1)
    ∧ convert_mbox_to_eml (fun m : Nat => m != 2) [1, 2, 3] = ((2, 1, 3), [1, 3]) := by
  constructor
  · intro α ok msgs
    exact convertLoop_total ok msgs 1 0 0 0 [] rfl rfl
  · decide

/-- C10: on an archive containing zero messages the loop body never runs, so
the driver returns (0, 0, 0) with nothing written; the output directory is
created with exist_ok semantics, which never raises. -/
theorem convert_empty_mbox :
    (∀ (ok : Nat → Bool), convert_mbox_to_eml ok ([] : List Nat) = ((0, 0, 0), []))
    ∧ ∀ (dirs : List (List Char)) (d : List Char), (mkdir dirs d true).isOk = true := by
  constructor
  · intro ok
    rfl
  · intro dirs d
    unfold mkdir
    split <;> simp [MkdirResult.isOk]

/-- Outcomes of `main`: a completed conversion with its report, or one of the
exception paths (FileNotFoundError, any other exception). -/
inductive RunOutcome : Type
  | report (success errors total : Nat)
  | fileNotFound
  | otherError

/-- Exit-code logic of `main` (lines 193-213):
    if errors == 0: sys.exit(0)
    elif success > 0: sys.exit(1)
    else: sys.exit(2)
with exit 2 on FileNotFoundError and on any unexpected exception. -/
def mainExitCode : RunOutcome → Nat
  | .report success errors _ => if errors = 0 then 0 else if 0 < success then 1 else 2
  | .fileNotFound => 2
  | .otherError => 2

/-- C8: the exit code distinguishes the three outcomes — 0 exactly when no
message failed, 1 exactly when some failed but at least one succeeded, and 2
exactly on total failure (failures with zero successes), with 2 also for an
archive that could not be opened. -/
theorem exit_codes_distinguish :
    (∀ s e t, mainExitCode (.report s e t) = 0 ↔ e = 0)
    ∧ (∀ s e t, mainExitCode (.report s e t) = 1 ↔ e ≠ 0 ∧ 0 < s)
    ∧ (∀ s e t, mainExitCode (.report s e t) = 2 ↔ e ≠ 0 ∧ s = 0)
    ∧ mainExitCode .fileNotFound = 2 ∧ mainExitCode .otherError = 2 := by
  refine ⟨fun s e t => ?_, fun s e t => ?_, fun s e t => ?_, rfl, rfl⟩ <;>
      simp only [mainExitCode] <;> split_ifs with h1 h2
  · simp [h1]
  · simp [h1]
  · simp [h1]
  · simp [h1]
  · simp [h1, h2]
  · simp [h1, h2]
  · simp [h1]
  · simp [h1, Nat.pos_iff_ne_zero.mp h2]
  · simp [h1, Nat.eq_zero_of_not_pos h2]

end MboxToEml
